import Mathlib

/-!
Verification development for the MCP-server storage core.

The Python sources embedded here are `app/core/context_manager.py` (the TTL
key/value store with cache, bulk operations, snapshot persistence) and
`app/core/file_manager.py` (the versioned file engine with its metadata store),
together with the pydantic models of `app/models/pydantic_models.py`.

Modelling conventions:
- Python `dict`s become association lists with first-match lookup; insertion
  updates the first matching entry in place (preserving position) and appends
  otherwise, matching CPython insertion-order semantics.
- `time.time()` instants are modelled as integers (`Time := Int`); every
  operation takes the current instant `now` as an explicit argument.
- JSON-serializable Python values are modelled by the inductive type `Json`,
  with `Json.null` playing the role of Python `None`.
- Async methods are pure state transformers: each returns its value together
  with the successor state and the list of events it published. The asyncio
  locks serialize those methods in the source, so one atomic step here is one
  locked critical section there.
- String helpers (`py_lower`, `py_starts_with`, ...) are defined by structural
  recursion on character lists so that all embedded code evaluates by `rfl`.
-/

namespace MCP

/-! ## Python-style string primitives -/

/-- Character-list prefix test (structural, kernel-reducible). -/
def chars_starts_with : List Char → List Char → Bool
  | _, [] => true
  | [], _ :: _ => false
  | c :: cs, d :: ds => c == d && chars_starts_with cs ds

/-- `s.startswith(p)` / `str.startswith`. -/
def py_starts_with (s p : String) : Bool :=
  chars_starts_with s.data p.data

/-- `s.endswith(p)` / `str.endswith`. -/
def py_ends_with (s p : String) : Bool :=
  chars_starts_with s.data.reverse p.data.reverse

/-- `s.lower()`. -/
def py_lower (s : String) : String :=
  ⟨s.data.map Char.toLower⟩

/-- Split a character list at every occurrence of `sep`. -/
def chars_split (sep : Char) : List Char → List (List Char)
  | [] => [[]]
  | c :: cs =>
    let rest := chars_split sep cs
    if c == sep then [] :: rest
    else match rest with
      | [] => [[c]]
      | r :: rs => (c :: r) :: rs

/-- `s.split(sep)` for a single-character separator. -/
def py_split (s : String) (sep : Char) : List String :=
  (chars_split sep s.data).map String.mk

/-- `s.replace(old, new)` for single characters (used for `'\\'` → `'/'`). -/
def py_replace_char (s : String) (old new : Char) : String :=
  ⟨s.data.map fun c => if c == old then new else c⟩

/-- Membership of a character in a string (`'.' in filename`). -/
def py_contains_char (s : String) (c : Char) : Bool :=
  s.data.contains c

/-- Drop the first `n` characters (`s[n:]`). -/
def py_drop (s : String) (n : Nat) : String :=
  ⟨s.data.drop n⟩

/-- Drop the last `n` characters (`s[:-n]`). -/
def py_drop_right (s : String) (n : Nat) : String :=
  ⟨s.data.take (s.data.length - n)⟩

/-- Parse a non-empty all-digit string as a `Nat`; `int(s)` raising `ValueError`
otherwise is modelled by `none`. -/
def py_parse_nat (s : String) : Option Nat :=
  if s.data ≠ [] ∧ s.data.all (·.isDigit) then
    some (s.data.foldl (fun acc c => acc * 10 + (c.toNat - 48)) 0)
  else none

/-- Decimal rendering of a `Nat` (for `f"v{version}"`), structural in the
number of digits via an explicit fuel argument. -/
def nat_digits : Nat → Nat → List Char
  | 0, _ => []
  | fuel + 1, n =>
    if n < 10 then [Char.ofNat (48 + n)]
    else nat_digits fuel (n / 10) ++ [Char.ofNat (48 + n % 10)]

def py_nat_repr (n : Nat) : String :=
  ⟨nat_digits (n + 1) n⟩

/-- The part of a path after the last `/` (`Path(p).name`). -/
def path_name (p : String) : String :=
  (py_split p '/').getLastD p

/-- `Path(p).stem`: the final component with its last extension removed. -/
def path_stem (p : String) : String :=
  let name := path_name p
  let parts := py_split name '.'
  if parts.length ≥ 2 then String.intercalate "." parts.dropLast else name

/-- `Path(p).suffix`: the last extension of the final component, dot included. -/
def path_suffix (p : String) : String :=
  let name := path_name p
  let parts := py_split name '.'
  if parts.length ≥ 2 then "." ++ parts.getLastD "" else ""

/-! ## Python dicts as association lists -/

/-- First-match lookup, `d.get(k)` / `d[k]`. -/
def dictGet {α : Type} (d : List (String × α)) (k : String) : Option α :=
  match d with
  | [] => none
  | (k', v) :: rest => if k' = k then some v else dictGet rest k

/-- `k in d`. -/
def dictContains {α : Type} (d : List (String × α)) (k : String) : Bool :=
  (dictGet d k).isSome

/-- `d[k] = v`: update the first matching entry in place, else append
(CPython dicts keep the original position of an updated key). -/
def dictInsert {α : Type} (d : List (String × α)) (k : String) (v : α) :
    List (String × α) :=
  match d with
  | [] => [(k, v)]
  | (k', v') :: rest =>
    if k' = k then (k', v) :: rest else (k', v') :: dictInsert rest k v

/-- `del d[k]` (all call sites guard with `if k in d`; on duplicate-free lists
removing every match coincides with deleting the entry). -/
def dictRemove {α : Type} : List (String × α) → String → List (String × α)
  | [], _ => []
  | (k', v) :: rest, k =>
    if k' = k then dictRemove rest k else (k', v) :: dictRemove rest k

/-- `list(d.keys())`. -/
def dictKeys {α : Type} (d : List (String × α)) : List String :=
  d.map (·.1)

theorem dictGet_insert {α : Type} (d : List (String × α)) (k k' : String) (v : α) :
    dictGet (dictInsert d k v) k' = if k' = k then some v else dictGet d k' := by
  induction d with
  | nil =>
    by_cases h : k' = k
    · simp [dictInsert, dictGet, h]
    · simp [dictInsert, dictGet, h, Ne.symm h]
  | cons kv rest ih =>
    obtain ⟨k₀, v₀⟩ := kv
    by_cases h0 : k₀ = k
    · subst h0
      by_cases h1 : k' = k₀
      · simp [dictInsert, dictGet, h1]
      · simp [dictInsert, dictGet, h1, Ne.symm h1]
    · by_cases h1 : k₀ = k'
      · have h2 : ¬k' = k := fun hh => h0 (h1.trans hh)
        simp [dictInsert, dictGet, h0, h1, h2]
      · simp [dictInsert, dictGet, h0, h1, ih]

theorem dictGet_remove {α : Type} (d : List (String × α)) (k k' : String) :
    dictGet (dictRemove d k) k' = if k' = k then none else dictGet d k' := by
  induction d with
  | nil => by_cases h : k' = k <;> simp [dictRemove, dictGet, h]
  | cons kv rest ih =>
    obtain ⟨k₀, v₀⟩ := kv
    by_cases h0 : k₀ = k
    · subst h0
      by_cases h1 : k' = k₀
      · subst h1; simpa [dictRemove, dictGet] using ih
      · simp [dictRemove, dictGet, h1, Ne.symm h1, ih]
    · by_cases h1 : k' = k₀
      · subst h1; simp [dictRemove, dictGet, h0, Ne.symm h0]
      · simp [dictRemove, dictGet, h0, h1, Ne.symm h1, ih]

theorem dictGet_none_remove_insert {α : Type} (d : List (String × α))
    (k : String) (v : α) (h : dictGet d k = none) :
    dictRemove (dictInsert d k v) k = d := by
  induction d with
  | nil => simp [dictInsert, dictRemove]
  | cons kv rest ih =>
    obtain ⟨k₀, v₀⟩ := kv
    by_cases h0 : k₀ = k
    · simp [dictGet, h0] at h
    · simp [dictGet, h0] at h
      simp [dictInsert, dictRemove, h0, ih h]

/-! ## JSON values (Python objects as passed through `orjson`) -/

inductive Json where
  | null
  | bool (b : Bool)
  | num (n : Int)
  | str (s : String)
  | arr (elems : List Json)
  | obj (fields : List (String × Json))

abbrev Time := Int

/-! ## `app/core/context_manager.py` — the TTL key/value store

Redis is disabled in the default configuration (`redis_url=None`), so the
remote cache tier is the constant miss the source falls through; only the
in-memory tiers are modelled. -/

/-- Constructor arguments of `ContextManager.__init__` that the embedded
operations read. -/
structure CtxConfig where
  cache_ttl : Int := 300
  max_cache_size : Nat := 10000

/-- One value of `ContextManager._context_store`: the dict
`{"value": ..., "metadata": ..., "created_at": ..., "updated_at": ...}`
built by `set_context`. -/
structure StoreItem where
  value : Json
  metadata : List (String × Json)
  created_at : Time
  updated_at : Time

/-- The mutable state of a `ContextManager`: `_context_store`, `_ttl_store`
(absolute expiry instants) and the local `_cache` (value, cache expiry). -/
structure CtxState where
  context_store : List (String × StoreItem)
  ttl_store : List (String × Time)
  cache : List (String × (Json × Time))

def CtxState.empty : CtxState := ⟨[], [], []⟩

/-- Payloads handed to `_notify_subscribers` (the `data` dict of the
`context_change` events built by `set_context`, `_delete_context` and
`bulk_operation`). -/
inductive CtxEventData where
  | set (key : String) (value : Json) (metadata : Option (List (String × Json)))
  | delete (key : String) (old_value : Json)
  | bulk_update (succeeded failed : Nat)

/-- Validation performed by constructing `ContextItem(key=..., value=...,
ttl=..., metadata=...)`: `key : str` and `value : Any` always validate for the
string/`Json` arguments the embedding passes, and
`ttl : Optional[int] = Field(None, ge=1)` rejects any provided `ttl < 1`. -/
def contextItemValidates (ttl : Option Int) : Bool :=
  match ttl with
  | none => true
  | some t => 1 ≤ t

/-- Stable insertion step: `a` goes after every earlier element `b` with
`le b a`, matching the stability of CPython `sorted`. -/
def stable_insert {α : Type} (le : α → α → Bool) (a : α) : List α → List α
  | [] => [a]
  | b :: bs => if le b a then b :: stable_insert le a bs else a :: b :: bs

/-- Stable sort (insertion sort) used to model `sorted(...)`/`list.sort`. -/
def stable_sort {α : Type} (le : α → α → Bool) (xs : List α) : List α :=
  xs.foldl (fun acc a => stable_insert le a acc) []

/-- `ContextManager._update_cache` (in-memory tier): evict the oldest
`max(1, max_cache_size // 10)` entries by cache expiry when full, then insert
the new entry with expiry `now + cache_ttl`. -/
def update_cache (cfg : CtxConfig) (cache : List (String × (Json × Time)))
    (key : String) (value : Json) (now : Time) : List (String × (Json × Time)) :=
  let expiry := now + cfg.cache_ttl
  let cache1 :=
    if cache.length ≥ cfg.max_cache_size then
      let items_to_remove := max 1 (cfg.max_cache_size / 10)
      let oldest_keys :=
        ((stable_sort (fun a b => decide (a.2.2 ≤ b.2.2)) cache).map (·.1)).take
          items_to_remove
      oldest_keys.foldl (fun c k => dictRemove c k) cache
    else cache
  dictInsert cache1 key (value, expiry)

/-- Result triple of `set_context`: returned boolean, successor state,
published events. -/
structure SetResult where
  ok : Bool
  state : CtxState
  events : List CtxEventData

/-- `ContextManager.set_context`. On a `ValidationError` it returns `False`
without mutating anything; otherwise it stores the item, installs the expiry
`now + ttl` when `ttl > 0` (clearing any prior expiry otherwise), updates the
cache, and notifies when `notify`. -/
def set_context (cfg : CtxConfig) (s : CtxState) (key : String) (value : Json)
    (ttl : Option Int) (metadata : Option (List (String × Json)))
    (notify : Bool) (now : Time) : SetResult :=
  if contextItemValidates ttl = false then ⟨false, s, []⟩
  else
    let item : StoreItem := ⟨value, metadata.getD [], now, now⟩
    let store' := dictInsert s.context_store key item
    let ttl' :=
      match ttl with
      | some t =>
        if t > 0 then dictInsert s.ttl_store key (now + t)
        else if dictContains s.ttl_store key then dictRemove s.ttl_store key
        else s.ttl_store
      | none =>
        if dictContains s.ttl_store key then dictRemove s.ttl_store key
        else s.ttl_store
    let cache' := update_cache cfg s.cache key value now
    ⟨true, ⟨store', ttl', cache'⟩, if notify then [.set key value metadata] else []⟩

/-- Result of `_delete_context`: returned boolean, successor state,
published events. -/
structure DeleteResult where
  existed : Bool
  state : CtxState
  events : List CtxEventData

/-- `ContextManager._delete_context`. -/
def delete_context (s : CtxState) (key : String) (notify : Bool) : DeleteResult :=
  match dictGet s.context_store key with
  | none => ⟨false, s, []⟩
  | some item =>
    let store' := dictRemove s.context_store key
    let ttl' :=
      if dictContains s.ttl_store key then dictRemove s.ttl_store key
      else s.ttl_store
    let cache' :=
      if dictContains s.cache key then dictRemove s.cache key else s.cache
    ⟨true, ⟨store', ttl', cache'⟩,
      if notify then [.delete key item.value] else []⟩

/-- Result of `_get_from_cache`: the returned Python object (`Json.null`
models `None`, i.e. a miss) and the successor state. `_get_from_cache` takes
only `self._cache_lock`, so it always returns. -/
structure GetResult where
  value : Json
  state : CtxState

/-- `ContextManager._get_from_cache` (in-memory tier; Redis disabled). A hit
whose cache expiry has passed is deleted and treated as a miss. The Python
method returns the cached object or `None`; `Json.null` models `None`. -/
def get_from_cache (s : CtxState) (key : String) (now : Time) : GetResult :=
  match dictGet s.cache key with
  | some (v, expiry) =>
    if expiry > now then ⟨v, s⟩
    else ⟨Json.null, { s with cache := dictRemove s.cache key }⟩
  | none => ⟨Json.null, s⟩

/-- Outcome of the keyed `get_context`: a returned value with the successor
state, or a permanent hang. `deadlock` models the expired-entry branch:
while still holding `self._lock`, the method awaits
`self._delete_context(key, notify=False)`, and `_delete_context` re-acquires
the same `asyncio.Lock`. That lock is not reentrant, and only the blocked
coroutine itself could release it, so the acquire never succeeds: the call
suspends forever, and neither a return value nor a successor state is ever
observable. -/
inductive GetOutcome where
  | returns (value : Json) (state : CtxState)
  | deadlock

/-- The under-lock body of the keyed `ContextManager.get_context`: unknown
keys read as `None`; an entry whose expiry has passed reaches
`await self._delete_context(key, notify=False)` with `self._lock` held and
deadlocks on the non-reentrant lock; live values re-populate the cache and
are returned. -/
def get_context_locked (cfg : CtxConfig) (s : CtxState) (key : String)
    (now : Time) : GetOutcome :=
  match dictGet s.context_store key with
  | none => .returns Json.null s
  | some item =>
    let expired : Bool :=
      match dictGet s.ttl_store key with
      | some expiry => decide (expiry < now)
      | none => false
    if expired then .deadlock
    else .returns item.value
      { s with cache := update_cache cfg s.cache key item.value now }

/-- The keyed `ContextManager.get_context(key, use_cache=True)` (the first of
the two definitions of that name in the class body; a later zero-argument
redefinition shadows it on the class object, see `get_context_app`). The
cache consultation happens before `self._lock` is acquired and cannot hang. -/
def get_context (cfg : CtxConfig) (s : CtxState) (key : String)
    (use_cache : Bool) (now : Time) : GetOutcome :=
  if use_cache then
    let r := get_from_cache s key now
    match r.value with
    | Json.null => get_context_locked cfg r.state key now
    | v => .returns v r.state
  else get_context_locked cfg s key now

/-- The second `ContextManager.get_context(self)` definition (line 734), which
shadows the keyed one on the class: it ignores the store and reports
process introspection data. Its `len(self._subscribers)` reads an attribute no
`__init__` path assigns, so the count is taken as an argument here. -/
def get_context_app (subscribers queue_size : Nat) (now : Time) :
    List (String × Json) :=
  [("timestamp", Json.num now), ("subscribers", Json.num subscribers),
   ("queue_size", Json.num queue_size)]

/-- `ContextManager.list_keys`: keys with the given prefix whose TTL entry, if
any, has not passed (`expiry >= now`). -/
def list_keys (s : CtxState) (pfx : String) (now : Time) : List String :=
  (dictKeys s.context_store).filter fun k =>
    py_starts_with k pfx &&
      (match dictGet s.ttl_store k with
       | some expiry => decide (expiry ≥ now)
       | none => true)


/-! ### `ContextManager.bulk_operation` -/

/-- One entry of the `operations` list. `other` covers an operation dict whose
`operation` value is neither `"set"` nor `"delete"` (the loop raises
`ValueError` for it). -/
inductive BulkOp where
  | set (key : String) (value : Json) (ttl : Option Int)
        (metadata : Option (List (String × Json)))
  | delete (key : String)
  | other (name : String)

/-- The `results` dict of `bulk_operation`. An error entry pairs the offending
operation with `str(e)`. -/
structure BulkResult where
  succeeded : Nat
  failed : Nat
  errors : List (BulkOp × String)

/-- The `for op in operations` loop of `bulk_operation`. A `False` return from
`set_context`/`_delete_context` only increments `failed`; with `fail_fast` it
additionally raises a generic exception that the surrounding handler catches,
appending the error entry, incrementing `failed` a second time, and breaking.
An unsupported operation raises `ValueError`, caught the same way. -/
def bulk_loop (cfg : CtxConfig) (s : CtxState) (fail_fast : Bool) (now : Time)
    (acc : BulkResult) : List BulkOp → BulkResult × CtxState
  | [] => (acc, s)
  | op :: rest =>
    match op with
    | .set k v ttl md =>
      let r := set_context cfg s k v ttl md false now
      if r.ok then
        bulk_loop cfg r.state fail_fast now
          { acc with succeeded := acc.succeeded + 1 } rest
      else if fail_fast then
        ({ succeeded := acc.succeeded, failed := acc.failed + 2,
           errors := acc.errors ++ [(op, "Operation failed and fail_fast is True")] },
         r.state)
      else bulk_loop cfg r.state fail_fast now
          { acc with failed := acc.failed + 1 } rest
    | .delete k =>
      let r := delete_context s k false
      if r.existed then
        bulk_loop cfg r.state fail_fast now
          { acc with succeeded := acc.succeeded + 1 } rest
      else if fail_fast then
        ({ succeeded := acc.succeeded, failed := acc.failed + 2,
           errors := acc.errors ++ [(op, "Operation failed and fail_fast is True")] },
         r.state)
      else bulk_loop cfg r.state fail_fast now
          { acc with failed := acc.failed + 1 } rest
    | .other name =>
      let acc' : BulkResult :=
        { acc with failed := acc.failed + 1,
                   errors := acc.errors ++ [(op, "Unsupported operation: " ++ name)] }
      if fail_fast then (acc', s)
      else bulk_loop cfg s fail_fast now acc' rest

/-- `ContextManager.bulk_operation`: run the loop with per-operation
notification suppressed, then publish one aggregate `bulk_update` event iff at
least one operation succeeded. -/
def bulk_operation (cfg : CtxConfig) (s : CtxState) (ops : List BulkOp)
    (fail_fast : Bool) (now : Time) :
    BulkResult × CtxState × List CtxEventData :=
  let out := bulk_loop cfg s fail_fast now ⟨0, 0, []⟩ ops
  (out.1, out.2,
    if out.1.succeeded > 0 then [.bulk_update out.1.succeeded out.1.failed]
    else [])

/-! ### Snapshot persistence (`_persist_data` / `_load_persisted_data`) -/

/-- JSON shape of one `_context_store` item inside the snapshot. -/
def encode_item (it : StoreItem) : Json :=
  .obj [("value", it.value), ("metadata", .obj it.metadata),
        ("created_at", .num it.created_at), ("updated_at", .num it.updated_at)]

def encode_context_store (d : List (String × StoreItem)) : Json :=
  .obj (d.map fun kv => (kv.1, encode_item kv.2))

def encode_ttl_store (d : List (String × Time)) : Json :=
  .obj (d.map fun kv => (kv.1, .num kv.2))

/-- `ContextManager._persist_data`: the snapshot document
`{"context_store": ..., "ttl_store": ..., "timestamp": ...}` serialized with
`orjson` and written via temp-file-then-`os.replace`. The document is the
modelled observable. -/
def persist_data (s : CtxState) (now : Time) : Json :=
  .obj [("context_store", encode_context_store s.context_store),
        ("ttl_store", encode_ttl_store s.ttl_store),
        ("timestamp", .num now)]

/-- Re-reading one persisted store item. `_load_persisted_data` assigns the
parsed dicts to `_context_store` unvalidated; this decoder expresses those
dicts back in the `StoreItem` shape `set_context` wrote them in. -/
def decode_item : Json → Option StoreItem
  | .obj [("value", v), ("metadata", .obj m), ("created_at", .num c),
          ("updated_at", .num u)] => some ⟨v, m, c, u⟩
  | _ => none

def decode_context_entries : List (String × Json) →
    Option (List (String × StoreItem))
  | [] => some []
  | (k, j) :: rest =>
    match decode_item j, decode_context_entries rest with
    | some it, some tail => some ((k, it) :: tail)
    | _, _ => none

def decode_ttl_entries : List (String × Json) → Option (List (String × Time))
  | [] => some []
  | (k, .num t) :: rest =>
    match decode_ttl_entries rest with
    | some tail => some ((k, t) :: tail)
    | none => none
  | _ => none

/-- `ContextManager._load_persisted_data` applied to a parsed snapshot
document: `data.get("context_store", {})` and `data.get("ttl_store", {})`
become the new in-memory maps. -/
def load_persisted_data (data : Json) :
    Option (List (String × StoreItem) × List (String × Time)) :=
  match data with
  | .obj fields =>
    let cs := (dictGet fields "context_store").getD (.obj [])
    let ts := (dictGet fields "ttl_store").getD (.obj [])
    match cs, ts with
    | .obj centries, .obj tentries =>
      match decode_context_entries centries, decode_ttl_entries tentries with
      | some c, some t => some (c, t)
      | _, _ => none
    | _, _ => none
  | _ => none

/-! ### Step relation over the store (foreground `set`/`delete`) -/

/-- One atomic foreground mutation of the TTL store (each runs under
`self._lock` in the source). -/
inductive CtxStep where
  | set (key : String) (value : Json) (ttl : Option Int)
        (metadata : Option (List (String × Json))) (now : Time)
  | delete (key : String) (now : Time)

def apply_step (cfg : CtxConfig) (s : CtxState) : CtxStep → CtxState
  | .set k v ttl md now => (set_context cfg s k v ttl md true now).state
  | .delete k _ => (delete_context s k true).state

def run_steps (cfg : CtxConfig) (s : CtxState) : List CtxStep → CtxState
  | [] => s
  | st :: rest => run_steps cfg (apply_step cfg s st) rest

/-- What the TTL index and value map should contain for key `k` after a step
sequence: `(present in value map, expiry recorded in TTL index)`. -/
def key_spec (k : String) (acc : Bool × Option Time) :
    List CtxStep → Bool × Option Time
  | [] => acc
  | .set k' _ ttl _ now :: rest =>
    if k' = k ∧ contextItemValidates ttl then
      key_spec k (true,
        match ttl with
        | some t => if t > 0 then some (now + t) else none
        | none => none) rest
    else key_spec k acc rest
  | .delete k' _ :: rest =>
    if k' = k ∧ acc.1 then key_spec k (false, none) rest
    else key_spec k acc rest

/-! ## `app/core/file_manager.py` — the versioned file engine

The filesystem under `storage_root` is a flat map from relative POSIX paths to
files. A file is either raw bytes (content blobs, temp uploads) or a metadata
document (the serialized `FileMetadata` JSON that `_save_metadata` writes and
`FileMetadata.parse_raw` reads back). `hash_fn` models the streaming SHA-256
of `_calculate_checksum` as an explicit function argument; `uuid4` values are
explicit arguments at every generation site. -/

/-- Errors raised by the file manager paths embedded here: `ValueError`,
pydantic `ValidationError` and `FileNotFoundError`. -/
inductive PyErr where
  | valueError (msg : String)
  | validationError (msg : String)
  | fileNotFound (msg : String)

/-- The `FileMetadata` pydantic model (`app/models/pydantic_models.py`,
lines 146-162). `path` is a required field with no default. -/
structure FileMetadata where
  file_id : String
  filename : String
  content_type : String
  size : Nat
  checksum : String
  metadata : List (String × Json)
  tags : List String
  created_at : Time
  updated_at : Time
  version : Nat
  path : String
  is_deleted : Bool
  deleted_at : Option Time
  created_by : Option String
  updated_by : Option String

/-- The keyword arguments of a `FileMetadata(...)` constructor call; `none`
means the caller did not pass the keyword. -/
structure FileMetadataArgs where
  file_id : Option String := none
  filename : Option String := none
  content_type : Option String := none
  size : Option Int := none
  checksum : Option String := none
  metadata : Option (List (String × Json)) := none
  tags : Option (List String) := none
  created_at : Option Time := none
  updated_at : Option Time := none
  version : Option Nat := none
  path : Option String := none
  is_deleted : Option Bool := none
  deleted_at : Option (Option Time) := none
  created_by : Option (Option String) := none
  updated_by : Option (Option String) := none

/-- Pydantic validation of a `FileMetadata(...)` call: the six fields declared
with `Field(...)` and no default (`file_id`, `filename`, `content_type`,
`size`, `checksum`, `path`) are required; `size` must be `>= 0`; the
`content_type` validator substitutes `application/octet-stream` for blank
input and lowercases; the `checksum` validator rejects the empty string and
lowercases. Defaults: `metadata={}`, `tags=[]`, timestamps `utcnow` (the
ambient `now`), `version=1`, `is_deleted=False`, the rest `None`. -/
def FileMetadata.construct (now : Time) (a : FileMetadataArgs) :
    Except PyErr FileMetadata :=
  match a.file_id, a.filename, a.content_type, a.size, a.checksum, a.path with
  | some fid, some fn, some ct, some sz, some cs, some p =>
    if sz < 0 then .error (.validationError "size must be non-negative")
    else if cs = "" then
      .error (.validationError "Checksum must be a non-empty string")
    else
      .ok { file_id := fid, filename := fn,
            content_type := if ct = "" then "application/octet-stream"
                            else py_lower ct,
            size := sz.toNat, checksum := py_lower cs,
            metadata := a.metadata.getD [], tags := a.tags.getD [],
            created_at := a.created_at.getD now,
            updated_at := a.updated_at.getD now,
            version := a.version.getD 1, path := p,
            is_deleted := a.is_deleted.getD false,
            deleted_at := a.deleted_at.getD none,
            created_by := a.created_by.getD none,
            updated_by := a.updated_by.getD none }
  | _, _, _, _, _, _ => .error (.validationError "field required")

/-- A file under `storage_root`: a raw content blob, or a metadata document
whose bytes are the JSON of a `FileMetadata` record. -/
inductive FsNode where
  | bytes (content : String)
  | doc (m : FileMetadata)

/-- The filesystem under `storage_root`, keyed by relative POSIX path. -/
structure FMState where
  fs : List (String × FsNode)

def FMState.empty : FMState := ⟨[]⟩

/-- Filesystem operations performed by a method, in order (write-discipline
observations for the atomic-persistence property). -/
inductive FsOp where
  | create (path : String)
  | rename (src dst : String)
  | remove (path : String)

/-- `FileManager` constructor arguments the embedded operations read. -/
structure FMConfig where
  max_file_size : Nat := 1073741824
  allowed_extensions : List String :=
    ["txt", "pdf", "png", "jpg", "jpeg", "gif", "csv", "json", "yaml", "yml",
     "xlsx", "xls", "xlsm", "xlsb", "doc", "docx", "ppt", "pptx", "zip",
     "rar", "py", "js", "html", "css", "md"]

/-- `FileManager._get_file_path`. -/
def get_file_path (file_id : String) (version : Option Nat) : String :=
  match version with
  | some v => "versions/" ++ file_id ++ "/v" ++ py_nat_repr v
  | none => file_id

/-- `FileManager._get_metadata_path`. The Python guard is `if version:` —
truthiness — so both `None` and `0` select the versionless root document. -/
def get_metadata_path (file_id : String) (version : Option Nat) : String :=
  match version with
  | some v =>
    if v = 0 then "metadata/" ++ file_id ++ ".json"
    else "metadata/" ++ file_id ++ "_v" ++ py_nat_repr v ++ ".json"
  | none => "metadata/" ++ file_id ++ ".json"

/-- `FileManager._validate_extension`: a dot must occur and the lowercased
text after the last dot must be an allowed extension. -/
def validate_extension (cfg : FMConfig) (filename : String) : Bool :=
  py_contains_char filename '.' &&
    cfg.allowed_extensions.contains
      (py_lower ((py_split filename '.').getLastD ""))

/-- `FileManager._save_metadata`: serialize the record and write it directly
to `metadata/{file_id}_v{version}.json` (via `_get_metadata_path` with the
record's own version). The returned trace records the single direct write. -/
def save_metadata (s : FMState) (m : FileMetadata) : FMState × List FsOp :=
  let metadata_path := get_metadata_path m.file_id (some m.version)
  (⟨dictInsert s.fs metadata_path (.doc m)⟩, [.create metadata_path])

/-- `FileManager.get_file_metadata`: read `_get_metadata_path(file_id,
version)` and `FileMetadata.parse_raw` it; a missing file raises
`FileNotFoundError`, a non-JSON-record file fails to parse. -/
def get_file_metadata (s : FMState) (file_id : String) (version : Option Nat) :
    Except PyErr FileMetadata :=
  match dictGet s.fs (get_metadata_path file_id version) with
  | none => .error (.fileNotFound ("Metadata for file " ++ file_id ++ " not found"))
  | some (.doc m) => .ok m
  | some (.bytes _) => .error (.validationError "parse_raw failed")

/-- `FileManager._iter_metadata_files`: both of its loops walk
`storage_root/metadata` for `.json` files (the second loop's `versions_root`
is assigned the metadata directory), so every metadata path is yielded twice. -/
def iter_metadata_files (s : FMState) : List String :=
  let once := (s.fs.filter fun kv =>
    py_starts_with kv.1 "metadata/" && py_ends_with kv.1 ".json").map (·.1)
  once ++ once

/-- `FileManager.list_files`: parse every iterated metadata document (skipping
unparsable ones), keep non-deleted records, apply the prefix / extension /
tags filters, sort by `updated_at` descending (stable), then paginate. -/
def list_files (s : FMState) (pfx ext : Option String)
    (tags : Option (List String)) (skip : Nat) (limit : Nat) :
    List FileMetadata :=
  let all := (iter_metadata_files s).filterMap fun p =>
    match dictGet s.fs p with
    | some (.doc m) => if m.is_deleted then none else some m
    | _ => none
  let filtered := all.filter fun m =>
    (match pfx with
     | some q =>
       if q = "" then true
       else py_starts_with (py_lower (py_replace_char m.filename '\\' '/'))
              (py_lower (py_replace_char q '\\' '/'))
     | none => true) &&
    (match ext with
     | some e =>
       if e = "" then true
       else py_ends_with (py_lower m.filename) ("." ++ py_lower e)
     | none => true) &&
    (match tags with
     | some ts =>
       if ts = [] then true else ts.all fun t => m.tags.contains t
     | none => true)
  let sorted := stable_sort (fun a b => decide (b.updated_at ≤ a.updated_at)) filtered
  (sorted.drop skip).take limit

/-- `FileManager.get_file_metadata_by_path`: first record of a default
`list_files()` scan (limit 100) whose filename equals the requested POSIX
path. -/
def get_file_metadata_by_path (s : FMState) (relative_path : String) :
    Option FileMetadata :=
  (list_files s none none none 0 100).find? fun m => m.filename == relative_path

/-- `FileManager._find_file_by_checksum`: for every iterated metadata path,
take its stem as a file id, load `get_file_metadata(stem)` (errors are caught
and skipped), and return the first record with the requested checksum. -/
def find_file_by_checksum (s : FMState) (checksum : String) :
    Option FileMetadata :=
  (iter_metadata_files s).findSome? fun p =>
    match get_file_metadata s (path_stem p) none with
    | .ok m => if m.checksum == checksum then some m else none
    | .error _ => none

/-- The `os.scandir` pass of `get_file_versions`: direct children of
`versions/{file_id}` named `v{n}.json` are parsed (`int` failures skipped) and
fetched via `get_file_metadata(file_id, n)`; a `FileNotFoundError` there is
not caught and propagates. -/
def collect_versions (s : FMState) (file_id : String) :
    List String → Except PyErr (List FileMetadata)
  | [] => .ok []
  | n :: rest =>
    if py_ends_with n ".json" then
      match py_parse_nat (py_drop_right (py_drop n 1) 5) with
      | none => collect_versions s file_id rest
      | some v =>
        match get_file_metadata s file_id (some v) with
        | .error e => .error e
        | .ok m =>
          match collect_versions s file_id rest with
          | .error e => .error e
          | .ok ms => .ok (m :: ms)
    else collect_versions s file_id rest

/-- Direct children names of directory `dir` in the flat filesystem. -/
def dir_children (s : FMState) (dir : String) : List String :=
  s.fs.filterMap fun kv =>
    if py_starts_with kv.1 dir then
      let name := py_drop kv.1 dir.length
      if py_contains_char name '/' then none else some name
    else none

/-- `FileManager.get_file_versions`, sorted ascending by version. An absent
directory scans as empty. -/
def get_file_versions (s : FMState) (file_id : String) :
    Except PyErr (List FileMetadata) :=
  let dir := "versions/" ++ file_id ++ "/"
  match collect_versions s file_id (dir_children s dir) with
  | .error e => .error e
  | .ok ms => .ok (stable_sort (fun a b => decide (a.version ≤ b.version)) ms)

/-- Events `upload_file` and `scan_and_register_existing_files` publish. -/
inductive FMEvent where
  | file_created (file_id filename : String) (size : Nat)
  | file_version_created (file_id filename : String) (version size : Nat)
  | file_registered (m : FileMetadata)

/-- Result triple of `upload_file`. -/
structure UploadOut where
  result : Except PyErr FileMetadata
  state : FMState
  events : List FMEvent

/-- `file.content_type or "application/octet-stream"` (Python truthiness on
the optional header value). -/
def py_or_str (v : Option String) (d : String) : String :=
  match v with
  | some x => if x = "" then d else x
  | none => d

/-- The tail of `upload_file` after the dedup check: look up an existing
record by logical path; when one exists and `overwrite` is false, take the
next-version branch (rename the temp file into the version slot computed from
`get_file_versions`, then construct and save the new version record); in every
other case take the new-file branch (rename the temp file to the fresh
`file_id` root location, construct and save a version-1 record). The
`FileMetadata(...)` calls pass no `path` keyword; on their failure the
`except` handler finds the temp file already renamed away, so the moved blob
stays and the error propagates with no metadata written and no event. -/
def upload_rest (cfg : FMConfig) (s1 : FMState) (temp_path content : String)
    (content_type : Option String) (filename : String)
    (metadata : Option (List (String × Json))) (tags : Option (List String))
    (overwrite : Bool) (file_id : String) (checksum : String) (now : Time) :
    UploadOut :=
  let existing_by_name := get_file_metadata_by_path s1 filename
  match existing_by_name, overwrite with
  | some ex, false =>
    match get_file_versions s1 ex.file_id with
    | .error e =>
      -- the uncaught FileNotFoundError propagates; cleanup removes the temp
      ⟨.error e, ⟨dictRemove s1.fs temp_path⟩, []⟩
    | .ok versions =>
      let next_version := (versions.map (·.version)).foldl max 0 + 1
      let version_path := get_file_path ex.file_id (some next_version)
      let s2 : FMState :=
        ⟨dictInsert (dictRemove s1.fs temp_path) version_path (.bytes content)⟩
      match FileMetadata.construct now
          { file_id := some ex.file_id, filename := some filename,
            content_type := some (py_or_str content_type "application/octet-stream"),
            size := some (content.length : Int), checksum := some checksum,
            metadata := some (metadata.getD []), tags := some (tags.getD []),
            created_at := some now, updated_at := some now,
            version := some next_version } with
      | .error e => ⟨.error e, s2, []⟩
      | .ok fm =>
        ⟨.ok fm, (save_metadata s2 fm).1,
         [.file_version_created ex.file_id filename next_version content.length]⟩
  | _, _ =>
    let final_path := get_file_path file_id none
    let s2 : FMState :=
      ⟨dictInsert (dictRemove s1.fs temp_path) final_path (.bytes content)⟩
    match FileMetadata.construct now
        { file_id := some file_id, filename := some filename,
          content_type := some (py_or_str content_type "application/octet-stream"),
          size := some (content.length : Int), checksum := some checksum,
          metadata := some (metadata.getD []), tags := some (tags.getD []),
          created_at := some now, updated_at := some now,
          version := some 1 } with
    | .error e => ⟨.error e, s2, []⟩
    | .ok fm =>
      ⟨.ok fm, (save_metadata s2 fm).1,
       [.file_created file_id filename content.length]⟩

/-- `FileManager.upload_file`. `filename` is the normalized
`effective_filename`, `content` the full upload stream, `file_id` the
generated `uuid4`, `hash_fn` the SHA-256 of `_calculate_checksum`. -/
def upload_file (hash_fn : String → String) (cfg : FMConfig) (s : FMState)
    (content : String) (content_type : Option String) (filename : String)
    (metadata : Option (List (String × Json))) (tags : Option (List String))
    (overwrite : Bool) (file_id : String) (now : Time) : UploadOut :=
  if filename = "" then
    ⟨.error (.valueError "No filename provided or derived"), s, []⟩
  else if validate_extension cfg filename = false then
    ⟨.error (.valueError "File type not allowed"), s, []⟩
  else
    let temp_path := "tmp/upload_" ++ file_id
    if content.length > cfg.max_file_size then
      -- the ValueError aborts streaming; cleanup removes the partial temp file
      ⟨.error (.valueError "File size exceeds maximum allowed size"), s, []⟩
    else
      let s1 : FMState := ⟨dictInsert s.fs temp_path (.bytes content)⟩
      let checksum := hash_fn content
      match find_file_by_checksum s1 checksum, overwrite with
      | some existing, false =>
        ⟨.ok existing, ⟨dictRemove s1.fs temp_path⟩, []⟩
      | _, _ =>
        upload_rest cfg s1 temp_path content content_type filename metadata
          tags overwrite file_id checksum now

/-- The keyword arguments of the `FileMetadata(...)` call inside
`scan_and_register_existing_files` (lines 759-771): no `path` keyword. -/
def scan_args (fid p ct : String) (sz : Nat) (cs : String) (c_t m_t : Time) :
    FileMetadataArgs :=
  { file_id := some fid, filename := some p, content_type := some ct,
    size := some (sz : Int), checksum := some cs,
    created_at := some c_t, updated_at := some m_t,
    metadata := some [("source", .str "scanned_import")],
    version := some 1, tags := some ["imported"], is_deleted := some false }

/-- The per-file registration loop of `scan_and_register_existing_files`.
`known` is the pre-collected set of known file ids; files with a `.meta`
suffix are skipped; known files (matched by a normalized filename of a
loadable `get_file_metadata(fid)` record) are skipped; otherwise registration
is attempted, and any exception inside it is caught, logged and skipped. -/
def scan_loop (hash_fn : String → String) (doc_bytes : FileMetadata → String)
    (detect_content_type new_id : String → String)
    (stat_ctime stat_mtime : String → Time) (now : Time)
    (known : List String) (st : FMState) (count : Nat) (evs : List FMEvent) :
    List (String × FsNode) → Nat × FMState × List FMEvent
  | [] => (count, st, evs)
  | (p, node) :: rest =>
    if path_suffix p = ".meta" then
      scan_loop hash_fn doc_bytes detect_content_type new_id stat_ctime
        stat_mtime now known st count evs rest
    else
      let is_known := known.any fun fid =>
        match get_file_metadata st fid none with
        | .ok m =>
          py_lower (py_replace_char m.filename '\\' '/') == py_lower p
        | .error _ => false
      if is_known then
        scan_loop hash_fn doc_bytes detect_content_type new_id stat_ctime
          stat_mtime now known st count evs rest
      else
        let content := match node with | .bytes c => c | .doc m => doc_bytes m
        let fid := new_id p
        match FileMetadata.construct now
            (scan_args fid p (detect_content_type p) content.length
              (hash_fn content) (stat_ctime p) (stat_mtime p)) with
        | .error _ =>
          -- `except Exception`: log the failure and continue with the next file
          scan_loop hash_fn doc_bytes detect_content_type new_id stat_ctime
            stat_mtime now known st count evs rest
        | .ok fm =>
          let st2 := (save_metadata st fm).1
          let target := get_file_path fid none
          let st3 : FMState :=
            if p ≠ target then ⟨dictInsert st2.fs target node⟩ else st2
          scan_loop hash_fn doc_bytes detect_content_type new_id stat_ctime
            stat_mtime now known st3 (count + 1)
            (evs ++ [.file_registered fm]) rest

/-- `FileManager.scan_and_register_existing_files`. `doc_bytes` models the
raw serialized bytes of a metadata document (what `_calculate_checksum` reads
from it), `detect_content_type` the `python-magic` probe, `new_id` the per-file
`uuid4`, `stat_ctime`/`stat_mtime` the `stat()` timestamps. -/
def scan_and_register_existing_files (hash_fn : String → String)
    (doc_bytes : FileMetadata → String)
    (detect_content_type new_id : String → String)
    (stat_ctime stat_mtime : String → Time) (s : FMState) (now : Time) :
    Nat × FMState × List FMEvent :=
  let known := (iter_metadata_files s).filterMap fun p =>
    match dictGet s.fs p with
    | some (.doc m) => some m.file_id
    | _ => none
  scan_loop hash_fn doc_bytes detect_content_type new_id stat_ctime stat_mtime
    now known s 0 [] s.fs

/-! ## Shared helper lemmas and concrete fixtures -/

/-- A `FileMetadata(...)` call that passes no `path` keyword always fails
pydantic validation, whatever else it passes. -/
theorem construct_no_path (now : Time) (a : FileMetadataArgs) (h : a.path = none) :
    FileMetadata.construct now a = .error (.validationError "field required") := by
  unfold FileMetadata.construct
  split
  · next heq => rw [h] at heq; exact absurd heq (by simp)
  · rfl

/-- The version-1 record of `docs/a.txt` used by the concrete upload states
(shaped as `_save_metadata` would store it). -/
def rec1 : FileMetadata :=
  { file_id := "f1", filename := "docs/a.txt", content_type := "text/plain",
    size := 3, checksum := "old", metadata := [], tags := [], created_at := 1,
    updated_at := 1, version := 1, path := "docs/a.txt", is_deleted := false,
    deleted_at := none, created_by := none, updated_by := none }

/-- A store holding one registered file: its version-1 metadata document and
its version-1 content blob (checksum `"old"`, under the identity hash). -/
def s_up : FMState :=
  ⟨[("metadata/f1_v1.json", .doc rec1), ("versions/f1/v1", .bytes "old")]⟩

/-- Context store fixture: `"k"` set with `ttl=1` at instant 0 (so its entry
expires at instant 1 and its cache entry at instant 300). -/
def ctx_expired : CtxState :=
  (set_context {} CtxState.empty "k" (Json.str "x") (some 1) none true 0).state

/-- Modelled from the spec: the write-to-temporary-location-then-atomic-rename
discipline that §4.2 prescribes for a Metadata Store `write(record)` — some
temporary path distinct from the final one is written first, then a single
rename moves it into place. Stated over the filesystem-operation trace for
comparison with the trace `save_metadata` actually produces. -/
def is_atomic_replace_write (trace : List FsOp) (final : String) : Prop :=
  ∃ tmp, tmp ≠ final ∧ trace = [.create tmp, .rename tmp final]

/-- C4: for a file identity with a stored metadata record, `read(file_id,
version=None)` is claimed to return the latest non-deleted version. Evaluating
the code at the failing input: after `_save_metadata` stores the version-1
record of `f1` (at `metadata/f1_v1.json`, since a record version is never
falsy), `get_file_metadata "f1" none` looks up `metadata/f1.json` — which no
manager write path ever creates — and raises `FileNotFoundError`, even though
the version record demonstrably sits in the store. -/
theorem read_latest_version_none_bug :
    get_file_metadata (save_metadata FMState.empty rec1).1 "f1" none
        = .error (.fileNotFound "Metadata for file f1 not found")
    ∧ dictGet (save_metadata FMState.empty rec1).1.fs
        (get_metadata_path "f1" (some 1)) = some (.doc rec1) := ⟨rfl, rfl⟩

/-- C5 counterexample: the trace of `_save_metadata` on a concrete record is a
single direct write of the final metadata path — it is not of the
write-temporary-then-rename form the claim asserts for every metadata write. -/
theorem save_metadata_not_atomic_counterexample :
    ¬ is_atomic_replace_write (save_metadata FMState.empty rec1).2
        (get_metadata_path "f1" (some 1)) := by
  rintro ⟨tmp, -, heq⟩
  simp [save_metadata, FMState.empty] at heq

/-- C5 amended: `_save_metadata` serializes the record and writes it directly
to its final `metadata/{file_id}_v{version}.json` location in one create, with
no temporary file and no rename; the write is visible to readers at that path
immediately. -/
theorem save_metadata_direct_write_amended (s : FMState) (m : FileMetadata) :
    (save_metadata s m).2
        = [FsOp.create (get_metadata_path m.file_id (some m.version))]
    ∧ dictGet (save_metadata s m).1.fs (get_metadata_path m.file_id (some m.version))
        = some (.doc m) := by
  refine ⟨rfl, ?_⟩
  simp [save_metadata, dictGet_insert]

/-- C8 counterexample: `set("k", "v", ttl=0)` does not store the value without
expiry as claimed — `ContextItem` requires `ttl >= 1`, so validation fails and
`set_context` returns `False` leaving the store empty. -/
theorem set_ttl_zero_counterexample :
    set_context {} CtxState.empty "k" (Json.str "v") (some 0) none true 5
        = ⟨false, CtxState.empty, []⟩
    ∧ dictGet (set_context {} CtxState.empty "k" (Json.str "v") (some 0) none
        true 5).state.context_store "k" = none := ⟨rfl, rfl⟩

/-- The bulk batch of §8: set `k1`, set `k2`, delete the nonexistent `k3`. -/
def bulk_ops_c7 : List BulkOp :=
  [.set "k1" (Json.str "a") none none, .set "k2" (Json.str "b") none none,
   .delete "k3"]

/-- C7 counterexample: on `bulk([{set k1},{set k2},{delete k3}],
fail_fast=false)` from the empty store the result is `succeeded=2, failed=1`
with an *empty* `errors` list — the failed delete returns `False` without
raising, and only raising operations get an error entry — so the claimed
single error entry referencing `k3` does not exist. The aggregate event half
of the batch (exactly one `bulk_update`) does hold here. -/
theorem bulk_errors_empty_counterexample :
    (bulk_operation {} CtxState.empty bulk_ops_c7 false 0).1
        = ⟨2, 1, []⟩
    ∧ (bulk_operation {} CtxState.empty bulk_ops_c7 false 0).2.2
        = [.bulk_update 2 1] := ⟨rfl, rfl⟩

/-- C3 counterexample: key `"k"` was set with `ttl=1` at instant 0, so its
entry expired at instant 1; at instant 10 the cached read path
(`use_cache=True`, the default) still returns the value `"x"` with the state
unchanged, because the cache entry carries its own expiry
`0 + cache_ttl = 300` and `_get_from_cache` never consults the TTL store;
and the uncached read path (`use_cache=False`) does not return absent either
— it reaches the expired branch and deadlocks on the non-reentrant
`self._lock`. Neither keyed read path treats the expired entry as absent. -/
theorem expired_cached_read_counterexample :
    dictGet ctx_expired.ttl_store "k" = some 1
    ∧ get_context {} ctx_expired "k" true 10
        = .returns (Json.str "x") ctx_expired
    ∧ get_context {} ctx_expired "k" false 10 = .deadlock := ⟨rfl, rfl, rfl⟩

/-- C1 counterexample: state `s_up` holds the record of `docs/a.txt`
(checksum `"old"`); uploading fresh content `"new"` (checksum matches no
record, path matches `rec1`) refutes both arms of the claim. With
`overwrite=true` no next-version slot is filled and no event is emitted: the
code takes the new-identity branch, moves the blob to the fresh root location
`f2`, and the `FileMetadata` construction (no `path` keyword) raises a
validation error with no metadata written. With `overwrite=false` no conflict
is signalled and stored state *is* mutated: the temp file is renamed over the
existing `versions/f1/v1` blob (`get_file_versions` finds no `.json` entry
there, so the next version recomputes as 1) before the same validation error. -/
theorem upload_existing_path_counterexample :
    (upload_file id {} s_up "new" none "docs/a.txt" none none true "f2" 7
       = ⟨.error (.validationError "field required"),
          ⟨[("metadata/f1_v1.json", .doc rec1), ("versions/f1/v1", .bytes "old"),
            ("f2", .bytes "new")]⟩, []⟩)
    ∧ (upload_file id {} s_up "new" none "docs/a.txt" none none false "f2" 7
       = ⟨.error (.validationError "field required"),
          ⟨[("metadata/f1_v1.json", .doc rec1),
            ("versions/f1/v1", .bytes "new")]⟩, []⟩) := ⟨rfl, rfl⟩

/-- C2 counterexample: uploading content whose checksum matches the existing
record but with `overwrite=true` does not return the existing record
unchanged: `_find_file_by_checksum`\x27s hit is ignored when `overwrite` is
truthy (`if existing_file and not overwrite`), the upload proceeds past dedup
and ends in the construction validation error — so the dedup no-op is not
independent of the overwrite flag. -/
theorem dedup_overwrite_counterexample :
    (upload_file id {} s_up "old" none "docs/a.txt" none none true "f2" 7).result
        = .error (.validationError "field required")
    ∧ find_file_by_checksum
        ⟨dictInsert s_up.fs "tmp/upload_f2" (.bytes "old")⟩ "old" = some rec1 :=
  ⟨rfl, rfl⟩

/-- The one-unregistered-file store for the scan counterexample. -/
def s_scan : FMState := ⟨[("docs/x.txt", .bytes "hello")]⟩

/-- C6 counterexample: on a store with one unregistered file the
`FileMetadata(...)` call inside `scan_and_register_existing_files` does fail
validation (no `path` keyword), but the operation does not raise that error:
the per-file `except` swallows it, no record is registered, and the scan
returns 0 normally. -/
theorem scan_swallows_validation_counterexample :
    scan_and_register_existing_files id (fun _ => "")
        (fun _ => "application/octet-stream") (fun _ => "g1")
        (fun _ => 0) (fun _ => 0) s_scan 0 = (0, s_scan, [])
    ∧ FileMetadata.construct 0
        (scan_args "g1" "docs/x.txt" "application/octet-stream" 5 "hello" 0 0)
        = .error (.validationError "field required") := ⟨rfl, rfl⟩

/-! ## Context-manager theorems -/

/-- C8 amended: on a validation error `set_context` returns failure without
storing anything — and a provided `ttl` that is not at least 1 *is* such a
validation error (`ContextItem` declares `ttl` with `ge=1`), rather than the
claimed store-without-expiry; a valid `ttl >= 1` stores the value with
`expires_at = now + ttl`; an omitted `ttl` stores the value with no expiry and
clears any prior expiry on the key. -/
theorem set_context_amended (cfg : CtxConfig) (s : CtxState) (key : String)
    (value : Json) (md : Option (List (String × Json))) (notify : Bool)
    (now : Time) :
    (∀ t : Int, t < 1 →
        set_context cfg s key value (some t) md notify now = ⟨false, s, []⟩)
    ∧ (∀ t : Int, 1 ≤ t →
        (set_context cfg s key value (some t) md notify now).ok = true
        ∧ dictGet (set_context cfg s key value (some t) md notify now).state.ttl_store key
            = some (now + t)
        ∧ dictGet (set_context cfg s key value (some t) md notify now).state.context_store key
            = some ⟨value, md.getD [], now, now⟩)
    ∧ ((set_context cfg s key value none md notify now).ok = true
        ∧ dictGet (set_context cfg s key value none md notify now).state.ttl_store key = none
        ∧ dictGet (set_context cfg s key value none md notify now).state.context_store key
            = some ⟨value, md.getD [], now, now⟩) := by
  refine ⟨fun t ht => ?_, fun t ht => ?_, ?_, ?_, ?_⟩
  · simp [set_context, contextItemValidates, not_le.mpr ht]
  · have hpos : t > 0 := by omega
    refine ⟨?_, ?_, ?_⟩ <;>
      simp [set_context, contextItemValidates, ht, hpos, dictGet_insert]
  · simp [set_context, contextItemValidates]
  · by_cases hc : dictContains s.ttl_store key
    · simp [set_context, contextItemValidates, hc, dictGet_remove]
    · have hnone : dictGet s.ttl_store key = none := by
        cases h : dictGet s.ttl_store key
        · rfl
        · simp [dictContains, h] at hc
      simp [set_context, contextItemValidates, hc, hnone]
  · simp [set_context, contextItemValidates, dictGet_insert]

/-- Witness for `set_context_amended` at concrete inputs: `ttl=-3` is rejected
with nothing stored, `ttl=10` at instant 5 records expiry 15, omitted `ttl`
records no expiry. -/
theorem set_context_amended_witness :
    set_context {} CtxState.empty "k" (Json.str "v") (some (-3)) none true 5
        = ⟨false, CtxState.empty, []⟩
    ∧ dictGet (set_context {} CtxState.empty "k" (Json.str "v") (some 10) none
        true 5).state.ttl_store "k" = some 15
    ∧ dictGet (set_context {} CtxState.empty "k" (Json.str "v") none none
        true 5).state.ttl_store "k" = none :=
  ⟨(set_context_amended {} CtxState.empty "k" (Json.str "v") none true 5).1
      (-3) (by decide),
   ((set_context_amended {} CtxState.empty "k" (Json.str "v") none true 5).2.1
      10 (by decide)).2.1,
   (set_context_amended {} CtxState.empty "k" (Json.str "v") none true 5).2.2.2.1⟩

/-- The part of the keyed `get_context` behind the lock deadlocks for a
stored entry whose expiry has strictly passed: the expired branch awaits
`_delete_context`, which re-acquires the already-held non-reentrant
`self._lock`. -/
theorem get_context_locked_expired (cfg : CtxConfig) (s : CtxState)
    (k : String) (now e : Time) (item : StoreItem)
    (hitem : dictGet s.context_store k = some item)
    (hexp : dictGet s.ttl_store k = some e) (hlt : e < now) :
    get_context_locked cfg s k now = .deadlock := by
  unfold get_context_locked
  rw [hitem]
  simp [hexp, hlt]

/-- C3 amended: of the read paths, only `list_keys` treats a stored entry
whose `expires_at` has passed as absent. The keyed `get` does not: with
`use_cache=false` — and with `use_cache=true` once the cache entry for the
key is itself expired or missing — the expired branch awaits
`_delete_context` while already holding the non-reentrant `self._lock` and
deadlocks permanently, never returning absent; and with `use_cache=true`
while a live non-null cache entry exists, the stale value is returned with
the state unchanged (cache entries carry their own `cache_ttl` expiry and
`_get_from_cache` never consults the TTL store). (A further divergence, not
needed here: a second zero-argument `get_context` definition later in the
class body shadows this keyed one on the class object.) -/
theorem expired_entry_read_amended (cfg : CtxConfig) (s : CtxState)
    (k q : String) (now e : Time)
    (hexp : dictGet s.ttl_store k = some e) (hlt : e < now) :
    k ∉ list_keys s q now
    ∧ (∀ item, dictGet s.context_store k = some item →
        get_context cfg s k false now = .deadlock)
    ∧ (∀ v ce, dictGet s.cache k = some (v, ce) → ce > now →
        v ≠ Json.null → get_context cfg s k true now = .returns v s)
    ∧ (∀ item, dictGet s.context_store k = some item →
        (∀ v ce, dictGet s.cache k = some (v, ce) → ce ≤ now) →
        get_context cfg s k true now = .deadlock) := by
  refine ⟨?_, ?_, ?_, ?_⟩
  · intro hmem
    have hpred := (List.mem_filter.mp hmem).2
    simp [hexp, not_le.mpr hlt] at hpred
  · intro item hitem
    simpa [get_context] using
      get_context_locked_expired cfg s k now e item hitem hexp hlt
  · intro v ce hc hce hv
    unfold get_context get_from_cache
    simp only [hc, if_pos hce]
    cases v with
    | null => exact absurd rfl hv
    | bool b => rfl
    | num n => rfl
    | str sv => rfl
    | arr xs => rfl
    | obj fs => rfl
  · intro item hitem hcache
    unfold get_context get_from_cache
    cases hc : dictGet s.cache k with
    | none =>
      simpa using
        get_context_locked_expired cfg s k now e item hitem hexp hlt
    | some p =>
      obtain ⟨v, ce⟩ := p
      have hle : ce ≤ now := hcache v ce hc
      have hngt : ¬ ce > now := not_lt.mpr hle
      simp only [hc, hngt, if_false, if_neg]
      simpa using get_context_locked_expired cfg
        { s with cache := dictRemove s.cache k } k now e item hitem hexp hlt

/-- Witness for `expired_entry_read_amended` on `ctx_expired` (entry expired
at instant 1, cache entry live until instant 300): at instant 10 `list_keys`
excludes the key, the uncached read deadlocks, and the cached read returns
the stale `"x"`; at instant 400, with the cache entry also expired, the
cached read deadlocks too. -/
theorem expired_entry_read_amended_witness :
    "k" ∉ list_keys ctx_expired "" 10
    ∧ get_context {} ctx_expired "k" false 10 = .deadlock
    ∧ get_context {} ctx_expired "k" true 10
        = .returns (Json.str "x") ctx_expired
    ∧ get_context {} ctx_expired "k" true 400 = .deadlock := by
  have h10 := expired_entry_read_amended {} ctx_expired "k" "" 10 1 rfl
    (by decide)
  have h400 := expired_entry_read_amended {} ctx_expired "k" "" 400 1 rfl
    (by decide)
  refine ⟨h10.1, h10.2.1 ⟨Json.str "x", [], 0, 0⟩ rfl,
    h10.2.2.1 (Json.str "x") 300 rfl (by decide) (fun h => Json.noConfusion h),
    h400.2.2.2 ⟨Json.str "x", [], 0, 0⟩ rfl ?_⟩
  intro v ce h
  rw [show dictGet ctx_expired.cache "k"
      = some (Json.str "x", (300 : Int)) from rfl] at h
  injection h with h1
  injection h1 with hv hce
  exact hce ▸ (by decide : (300 : Int) ≤ 400)

/-- Marker for the operations of a bulk batch that raise inside the loop
(unsupported operation type). -/
def BulkOp.is_other : BulkOp → Bool
  | .other _ => true
  | _ => false

theorem bulk_loop_false_counts (cfg : CtxConfig) (now : Time) :
    ∀ (ops : List BulkOp) (s : CtxState) (acc : BulkResult),
      (bulk_loop cfg s false now acc ops).1.succeeded
          + (bulk_loop cfg s false now acc ops).1.failed
        = acc.succeeded + acc.failed + ops.length
      ∧ (bulk_loop cfg s false now acc ops).1.errors.length
          = acc.errors.length + (ops.filter BulkOp.is_other).length := by
  intro ops
  induction ops with
  | nil => intro s acc; simp [bulk_loop]
  | cons op rest ih =>
    intro s acc
    cases op with
    | set k v ttl md =>
      by_cases hok : (set_context cfg s k v ttl md false now).ok = true
      · obtain ⟨ih1, ih2⟩ := ih (set_context cfg s k v ttl md false now).state
          { acc with succeeded := acc.succeeded + 1 }
        dsimp only at ih1 ih2
        simp only [bulk_loop, hok, if_true, List.filter_cons, BulkOp.is_other,
          Bool.false_eq_true, List.length_cons]
        exact ⟨by omega, by simpa using ih2⟩
      · rw [Bool.not_eq_true] at hok
        obtain ⟨ih1, ih2⟩ := ih (set_context cfg s k v ttl md false now).state
          { acc with failed := acc.failed + 1 }
        dsimp only at ih1 ih2
        simp only [bulk_loop, hok, Bool.false_eq_true, if_false,
          List.filter_cons, BulkOp.is_other, List.length_cons]
        exact ⟨by omega, by simpa using ih2⟩
    | delete k =>
      by_cases hok : (delete_context s k false).existed = true
      · obtain ⟨ih1, ih2⟩ := ih (delete_context s k false).state
          { acc with succeeded := acc.succeeded + 1 }
        dsimp only at ih1 ih2
        simp only [bulk_loop, hok, if_true, List.filter_cons, BulkOp.is_other,
          Bool.false_eq_true, List.length_cons]
        exact ⟨by omega, by simpa using ih2⟩
      · rw [Bool.not_eq_true] at hok
        obtain ⟨ih1, ih2⟩ := ih (delete_context s k false).state
          { acc with failed := acc.failed + 1 }
        dsimp only at ih1 ih2
        simp only [bulk_loop, hok, Bool.false_eq_true, if_false,
          List.filter_cons, BulkOp.is_other, List.length_cons]
        exact ⟨by omega, by simpa using ih2⟩
    | other name =>
      obtain ⟨ih1, ih2⟩ := ih s
        { acc with failed := acc.failed + 1,
                   errors := acc.errors
                     ++ [(BulkOp.other name, "Unsupported operation: " ++ name)] }
      dsimp only at ih1 ih2
      simp only [bulk_loop, Bool.false_eq_true, if_false, List.filter_cons,
        BulkOp.is_other, if_true, List.length_cons]
      constructor
      · omega
      · simp only [List.length_append, List.length_cons, List.length_nil] at ih2
        simp [ih2]
        omega

/-- C7 amended: with `fail_fast=false` every operation is attempted and counts
in exactly one of `succeeded`/`failed`; but error entries are recorded only
for operations that *raise* inside the loop (an unsupported operation type) —
a `set`/`delete` that merely returns failure (such as deleting a nonexistent
key) increments `failed` with no error entry; and the single aggregate
`bulk_update` event is emitted iff at least one operation succeeded (no
per-operation events are emitted, each runs with `notify=False`). -/
theorem bulk_fail_fast_false_amended (cfg : CtxConfig) (s : CtxState)
    (ops : List BulkOp) (now : Time) :
    (bulk_operation cfg s ops false now).1.succeeded
        + (bulk_operation cfg s ops false now).1.failed = ops.length
    ∧ (bulk_operation cfg s ops false now).1.errors.length
        = (ops.filter BulkOp.is_other).length
    ∧ (bulk_operation cfg s ops false now).2.2
        = (if (bulk_operation cfg s ops false now).1.succeeded > 0
           then [CtxEventData.bulk_update
                   (bulk_operation cfg s ops false now).1.succeeded
                   (bulk_operation cfg s ops false now).1.failed]
           else []) := by
  have h := bulk_loop_false_counts cfg now ops s ⟨0, 0, []⟩
  exact ⟨by simpa [bulk_operation] using h.1,
         by simpa [bulk_operation] using h.2, rfl⟩

theorem decode_encode_context (d : List (String × StoreItem)) :
    decode_context_entries (d.map fun kv => (kv.1, encode_item kv.2)) = some d := by
  induction d with
  | nil => rfl
  | cons kv rest ih =>
    obtain ⟨k, it⟩ := kv
    rw [List.map_cons]
    simp only [decode_context_entries]
    rw [ih]
    simp [decode_item, encode_item]

theorem decode_encode_ttl (d : List (String × Time)) :
    decode_ttl_entries (d.map fun kv => (kv.1, Json.num kv.2)) = some d := by
  induction d with
  | nil => rfl
  | cons kv rest ih =>
    obtain ⟨k, t⟩ := kv
    rw [List.map_cons]
    simp only [decode_ttl_entries]
    rw [ih]

/-- C9: persisting a snapshot of any TTL store state and loading it back (as
`initialize` does at process restart) reproduces the same value map and the
same TTL index with its absolute expiry instants — round-trip fidelity of
`_persist_data` / `_load_persisted_data`. Values are `Json`, i.e.
serializable by construction. -/
theorem snapshot_round_trip (s : CtxState) (now : Time) :
    load_persisted_data (persist_data s now)
      = some (s.context_store, s.ttl_store) := by
  simp [load_persisted_data, persist_data, encode_context_store,
    encode_ttl_store, dictGet, decode_encode_context, decode_encode_ttl]

theorem apply_step_set_invalid (cfg : CtxConfig) (s : CtxState) (k' : String)
    (v : Json) (ttl : Option Int) (md : Option (List (String × Json)))
    (now : Time) (hval : contextItemValidates ttl = false) :
    apply_step cfg s (.set k' v ttl md now) = s := by
  simp [apply_step, set_context, hval]

theorem dictGet_not_contains {α : Type} (d : List (String × α)) (k : String)
    (h : dictContains d k = false) : dictGet d k = none := by
  cases hg : dictGet d k
  · rfl
  · simp [dictContains, hg] at h

theorem apply_step_set_store (cfg : CtxConfig) (s : CtxState) (k' : String)
    (v : Json) (ttl : Option Int) (md : Option (List (String × Json)))
    (now : Time) (k : String) (hval : contextItemValidates ttl = true) :
    dictContains (apply_step cfg s (.set k' v ttl md now)).context_store k
      = (if k' = k then true else dictContains s.context_store k) := by
  by_cases hk : k' = k
  · simp [apply_step, set_context, hval, dictContains, dictGet_insert, hk]
  · simp [apply_step, set_context, hval, dictContains, dictGet_insert, hk,
      Ne.symm hk]

theorem apply_step_set_ttl (cfg : CtxConfig) (s : CtxState) (k' : String)
    (v : Json) (ttl : Option Int) (md : Option (List (String × Json)))
    (now : Time) (k : String) (hval : contextItemValidates ttl = true) :
    dictGet (apply_step cfg s (.set k' v ttl md now)).ttl_store k
      = (if k' = k
         then (match ttl with
               | some t => if t > 0 then some (now + t) else none
               | none => none)
         else dictGet s.ttl_store k) := by
  by_cases hk : k' = k
  · subst hk
    cases ttl with
    | none =>
      by_cases hc : dictContains s.ttl_store k'
      · simp [apply_step, set_context, hval, hc, dictGet_remove]
      · simp only [Bool.not_eq_true] at hc
        simp [apply_step, set_context, hval, hc, dictGet_not_contains _ _ hc]
    | some t =>
      by_cases ht : t > 0
      · simp [apply_step, set_context, hval, ht, dictGet_insert]
      · by_cases hc : dictContains s.ttl_store k'
        · simp [apply_step, set_context, hval, ht, hc, dictGet_remove]
        · simp only [Bool.not_eq_true] at hc
          simp [apply_step, set_context, hval, ht, hc,
            dictGet_not_contains _ _ hc]
  · cases ttl with
    | none =>
      by_cases hc : dictContains s.ttl_store k'
      · simp [apply_step, set_context, hval, hc, dictGet_remove, hk,
          Ne.symm hk]
      · simp only [Bool.not_eq_true] at hc
        simp [apply_step, set_context, hval, hc, hk]
    | some t =>
      by_cases ht : t > 0
      · simp [apply_step, set_context, hval, ht, dictGet_insert, hk,
          Ne.symm hk]
      · by_cases hc : dictContains s.ttl_store k'
        · simp [apply_step, set_context, hval, ht, hc, dictGet_remove, hk,
            Ne.symm hk]
        · simp only [Bool.not_eq_true] at hc
          simp [apply_step, set_context, hval, ht, hc, hk]

theorem apply_step_delete_store (cfg : CtxConfig) (s : CtxState)
    (k' : String) (now : Time) (k : String) :
    dictContains (apply_step cfg s (.delete k' now)).context_store k
      = (if k' = k then false else dictContains s.context_store k) := by
  cases hd : dictGet s.context_store k' with
  | none =>
    by_cases hk : k' = k
    · subst hk; simp [apply_step, delete_context, hd, dictContains]
    · simp [apply_step, delete_context, hd, hk]
  | some item =>
    by_cases hk : k' = k
    · subst hk
      simp [apply_step, delete_context, hd, dictContains, dictGet_remove]
    · simp [apply_step, delete_context, hd, dictContains, dictGet_remove, hk,
        Ne.symm hk]

theorem apply_step_delete_ttl (cfg : CtxConfig) (s : CtxState)
    (k' : String) (now : Time) (k : String) :
    dictGet (apply_step cfg s (.delete k' now)).ttl_store k
      = (if k' = k ∧ dictContains s.context_store k' = true then none
         else dictGet s.ttl_store k) := by
  cases hd : dictGet s.context_store k' with
  | none => simp [apply_step, delete_context, hd, dictContains]
  | some item =>
    have hcs : dictContains s.context_store k' = true := by
      simp [dictContains, hd]
    by_cases hk : k' = k
    · subst hk
      by_cases hc : dictContains s.ttl_store k'
      · simp [apply_step, delete_context, hd, hcs, hc, dictGet_remove]
      · simp only [Bool.not_eq_true] at hc
        simp [apply_step, delete_context, hd, hcs, hc,
          dictGet_not_contains _ _ hc]
    · by_cases hc : dictContains s.ttl_store k'
      · simp [apply_step, delete_context, hd, hcs, hc, dictGet_remove, hk,
          Ne.symm hk]
      · simp only [Bool.not_eq_true] at hc
        simp [apply_step, delete_context, hd, hcs, hc, hk]



theorem run_steps_key (cfg : CtxConfig) (k : String) :
    ∀ (steps : List CtxStep) (s : CtxState) (p : Bool) (a : Option Time),
      dictContains s.context_store k = p → dictGet s.ttl_store k = a →
      dictContains (run_steps cfg s steps).context_store k
          = (key_spec k (p, a) steps).1
      ∧ dictGet (run_steps cfg s steps).ttl_store k
          = (key_spec k (p, a) steps).2 := by
  intro steps
  induction steps with
  | nil =>
    intro s p a h1 h2
    exact ⟨by simpa [run_steps, key_spec] using h1,
           by simpa [run_steps, key_spec] using h2⟩
  | cons st rest ih =>
    intro s p a h1 h2
    cases st with
    | set k' v ttl md now =>
      by_cases hval : contextItemValidates ttl = true
      · by_cases hk : k' = k
        · subst hk
          cases ttl with
          | some t =>
            have hs := apply_step_set_store cfg s k' v (some t) md now k' hval
            have ht := apply_step_set_ttl cfg s k' v (some t) md now k' hval
            rw [if_pos rfl] at hs
            rw [if_pos rfl] at ht
            have hspec : key_spec k' (p, a) (.set k' v (some t) md now :: rest)
                = key_spec k' (true, if t > 0 then some (now + t) else none)
                    rest := by
              simp [key_spec, hval]
            rw [hspec, show run_steps cfg s (.set k' v (some t) md now :: rest)
                = run_steps cfg (apply_step cfg s (.set k' v (some t) md now))
                    rest from rfl]
            exact ih _ true _ hs ht
          | none =>
            have hs := apply_step_set_store cfg s k' v none md now k' hval
            have ht := apply_step_set_ttl cfg s k' v none md now k' hval
            rw [if_pos rfl] at hs
            rw [if_pos rfl] at ht
            have hspec : key_spec k' (p, a) (.set k' v none md now :: rest)
                = key_spec k' (true, none) rest := by
              simp [key_spec, hval]
            rw [hspec, show run_steps cfg s (.set k' v none md now :: rest)
                = run_steps cfg (apply_step cfg s (.set k' v none md now))
                    rest from rfl]
            exact ih _ true _ hs ht
        · have hs := apply_step_set_store cfg s k' v ttl md now k hval
          have ht := apply_step_set_ttl cfg s k' v ttl md now k hval
          rw [if_neg hk] at hs
          rw [if_neg hk] at ht
          have hspec : key_spec k (p, a) (.set k' v ttl md now :: rest)
              = key_spec k (p, a) rest := by
            simp [key_spec, hk]
          rw [hspec, show run_steps cfg s (.set k' v ttl md now :: rest)
              = run_steps cfg (apply_step cfg s (.set k' v ttl md now)) rest
              from rfl]
          exact ih _ p a (hs.trans h1) (ht.trans h2)
      · rw [Bool.not_eq_true] at hval
        have hstep := apply_step_set_invalid cfg s k' v ttl md now hval
        have hspec : key_spec k (p, a) (.set k' v ttl md now :: rest)
            = key_spec k (p, a) rest := by
          simp [key_spec, hval]
        rw [hspec, show run_steps cfg s (.set k' v ttl md now :: rest)
            = run_steps cfg (apply_step cfg s (.set k' v ttl md now)) rest
            from rfl, hstep]
        exact ih s p a h1 h2
    | delete k' now =>
      have hs := apply_step_delete_store cfg s k' now k
      have ht := apply_step_delete_ttl cfg s k' now k
      by_cases hk : k' = k
      · subst hk
        rw [if_pos rfl] at hs
        rw [h1] at ht
        by_cases hp : p = true
        · subst hp
          rw [if_pos ⟨rfl, rfl⟩] at ht
          have hspec : key_spec k' (true, a) (.delete k' now :: rest)
              = key_spec k' (false, none) rest := by
            simp [key_spec]
          rw [hspec, show run_steps cfg s (.delete k' now :: rest)
              = run_steps cfg (apply_step cfg s (.delete k' now)) rest from rfl]
          exact ih _ false none hs ht
        · rw [Bool.not_eq_true] at hp
          subst hp
          rw [if_neg (by simp)] at ht
          have hspec : key_spec k' (false, a) (.delete k' now :: rest)
              = key_spec k' (false, a) rest := by
            simp [key_spec]
          rw [hspec, show run_steps cfg s (.delete k' now :: rest)
              = run_steps cfg (apply_step cfg s (.delete k' now)) rest from rfl]
          exact ih _ false a hs (ht.trans h2)
      · rw [if_neg hk] at hs
        rw [if_neg (by intro hc; exact hk hc.1)] at ht
        have hspec : key_spec k (p, a) (.delete k' now :: rest)
            = key_spec k (p, a) rest := by
          simp [key_spec, hk]
        rw [hspec, show run_steps cfg s (.delete k' now :: rest)
            = run_steps cfg (apply_step cfg s (.delete k' now)) rest from rfl]
        exact ih _ p a (hs.trans h1) (ht.trans h2)

theorem key_spec_present (k : String) :
    ∀ (steps : List CtxStep) (p : Bool) (a : Option Time),
      (a.isSome = true → p = true) →
      ((key_spec k (p, a) steps).2.isSome = true → (key_spec k (p, a) steps).1 = true) := by
  intro steps
  induction steps with
  | nil => intro p a h; simpa [key_spec] using h
  | cons st rest ih =>
    intro p a h
    cases st with
    | set k' v ttl md now =>
      by_cases hcond : k' = k ∧ contextItemValidates ttl = true
      · simp only [key_spec, if_pos hcond]
        exact ih true _ (fun _ => rfl)
      · simp only [key_spec, if_neg hcond]
        exact ih p a h
    | delete k' now =>
      by_cases hcond : k' = k ∧ (p, a).1 = true
      · simp only [key_spec, if_pos hcond]
        exact ih false none (by simp)
      · simp only [key_spec, if_neg hcond]
        exact ih p a h

/-- C10: after any sequence of foreground `set`/`delete` steps from the empty
store, presence in the value map and the content of the TTL index for every
key are exactly characterized by `key_spec` (the expiry the last effective
`set` gave, if any), and a key present in the TTL index is always present in
the value map — the store is never in a state with a dangling TTL entry or a
recorded expiry other than the one it was given. -/
theorem ttl_index_value_map_consistency (cfg : CtxConfig)
    (steps : List CtxStep) (k : String) :
    dictContains (run_steps cfg CtxState.empty steps).context_store k
        = (key_spec k (false, none) steps).1
    ∧ dictGet (run_steps cfg CtxState.empty steps).ttl_store k
        = (key_spec k (false, none) steps).2
    ∧ (dictContains (run_steps cfg CtxState.empty steps).ttl_store k = true →
        dictContains (run_steps cfg CtxState.empty steps).context_store k = true) := by
  obtain ⟨h1, h2⟩ := run_steps_key cfg k steps CtxState.empty false none rfl rfl
  refine ⟨h1, h2, fun hc => ?_⟩
  rw [h1]
  apply key_spec_present k steps false none (by simp)
  rw [dictContains, h2] at hc
  exact hc

/-! ## File-manager theorems -/

/-- C2 amended: when an existing record matches the upload checksum *and*
`overwrite` is false, `upload_file` returns that record unchanged, removes the
temp file (net state unchanged: no new identity, no new version, no metadata
mutation), publishes no event and raises no error. When `overwrite` is true
this dedup return is bypassed (see the counterexample). -/
theorem dedup_no_overwrite_amended (hash_fn : String → String)
    (cfg : FMConfig) (s : FMState) (content : String) (ct : Option String)
    (filename : String) (md : Option (List (String × Json)))
    (tags : Option (List String)) (file_id : String) (now : Time)
    (m : FileMetadata)
    (hfn : ¬ filename = "")
    (hext : validate_extension cfg filename = true)
    (hsz : content.length ≤ cfg.max_file_size)
    (hfresh : dictGet s.fs ("tmp/upload_" ++ file_id) = none)
    (hded : find_file_by_checksum
        ⟨dictInsert s.fs ("tmp/upload_" ++ file_id) (.bytes content)⟩
        (hash_fn content) = some m) :
    upload_file hash_fn cfg s content ct filename md tags false file_id now
      = ⟨.ok m, s, []⟩ := by
  have hsz' : ¬ content.length > cfg.max_file_size := by omega
  unfold upload_file
  rw [if_neg hfn, hext]
  simp only [Bool.true_eq_false, if_false, if_neg hsz']
  rw [hded]
  show UploadOut.mk (.ok m)
      ⟨dictRemove (dictInsert s.fs ("tmp/upload_" ++ file_id) (.bytes content))
        ("tmp/upload_" ++ file_id)⟩ [] = ⟨.ok m, s, []⟩
  rw [dictGet_none_remove_insert s.fs ("tmp/upload_" ++ file_id)
    (.bytes content) hfresh]

/-- Witness for `dedup_no_overwrite_amended`: re-uploading the bytes `"old"`
under a different logical path with `overwrite=false` returns the existing
record `rec1` with the store unchanged and no events. -/
theorem dedup_no_overwrite_amended_witness :
    upload_file id {} s_up "old" none "docs/b.txt" none none false "f2" 7
      = ⟨.ok rec1, s_up, []⟩ :=
  dedup_no_overwrite_amended id {} s_up "old" none "docs/b.txt" none none
    "f2" 7 rec1 (by decide) rfl (by decide) rfl rfl

theorem collect_versions_no_json (s : FMState) (fid : String) :
    ∀ l : List String, (∀ n ∈ l, py_ends_with n ".json" = false) →
      collect_versions s fid l = .ok [] := by
  intro l
  induction l with
  | nil => intro _; rfl
  | cons n rest ih =>
    intro h
    have hn := h n (List.mem_cons_self n rest)
    simp only [collect_versions, hn, Bool.false_eq_true, if_false]
    exact ih fun x hx => h x (List.mem_cons_of_mem n hx)

/-- C1 amended: for an upload whose checksum matches no record but whose path
matches an existing record `ex` (and which passes the name/extension/size
checks), no conflict error is ever signalled and no metadata record or event
is produced; instead: with `overwrite=false` the code takes the next-version
branch — the temp file is renamed into the version slot numbered
`max(get_file_versions) + 1` and the upload then fails with the
`FileMetadata` validation error (required `path` missing) — and with
`overwrite=true` it takes the new-identity branch, renaming the temp file to
the fresh `file_id` root location before failing the same way. Moreover
`get_file_versions` scans the content versions directory for `.json` entries,
so when that directory holds only extension-less content blobs the version
list is empty and the "next" slot recomputes as 1. -/
theorem upload_existing_path_amended (hash_fn : String → String)
    (cfg : FMConfig) (s : FMState) (content : String) (ct : Option String)
    (filename : String) (md : Option (List (String × Json)))
    (tags : Option (List String)) (file_id : String) (now : Time)
    (ex : FileMetadata) (vs : List FileMetadata)
    (hfn : ¬ filename = "")
    (hext : validate_extension cfg filename = true)
    (hsz : content.length ≤ cfg.max_file_size)
    (hfresh : dictGet s.fs ("tmp/upload_" ++ file_id) = none)
    (hded : find_file_by_checksum
        ⟨dictInsert s.fs ("tmp/upload_" ++ file_id) (.bytes content)⟩
        (hash_fn content) = none)
    (hby : get_file_metadata_by_path
        ⟨dictInsert s.fs ("tmp/upload_" ++ file_id) (.bytes content)⟩
        filename = some ex)
    (hvs : get_file_versions
        ⟨dictInsert s.fs ("tmp/upload_" ++ file_id) (.bytes content)⟩
        ex.file_id = .ok vs) :
    upload_file hash_fn cfg s content ct filename md tags false file_id now
        = ⟨.error (.validationError "field required"),
           ⟨dictInsert s.fs
              (get_file_path ex.file_id
                (some ((vs.map (fun r => r.version)).foldl max 0 + 1)))
              (.bytes content)⟩, []⟩
    ∧ upload_file hash_fn cfg s content ct filename md tags true file_id now
        = ⟨.error (.validationError "field required"),
           ⟨dictInsert s.fs (get_file_path file_id none) (.bytes content)⟩, []⟩
    ∧ ((∀ n ∈ dir_children
            ⟨dictInsert s.fs ("tmp/upload_" ++ file_id) (.bytes content)⟩
            ("versions/" ++ ex.file_id ++ "/"),
          py_ends_with n ".json" = false) → vs = []) := by
  have hsz' : ¬ content.length > cfg.max_file_size := by omega
  have hrm : dictRemove
      (dictInsert s.fs ("tmp/upload_" ++ file_id) (.bytes content))
      ("tmp/upload_" ++ file_id) = s.fs :=
    dictGet_none_remove_insert s.fs ("tmp/upload_" ++ file_id)
      (.bytes content) hfresh
  refine ⟨?_, ?_, ?_⟩
  · unfold upload_file
    rw [if_neg hfn, hext]
    simp only [Bool.true_eq_false, if_false, if_neg hsz']
    rw [hded]
    dsimp only
    unfold upload_rest
    rw [hby]
    dsimp only
    rw [hvs]
    dsimp only
    rw [hrm, construct_no_path now _ rfl]
  · unfold upload_file
    rw [if_neg hfn, hext]
    simp only [Bool.true_eq_false, if_false, if_neg hsz']
    rw [hded]
    dsimp only
    unfold upload_rest
    rw [hby]
    dsimp only
    rw [hrm, construct_no_path now _ rfl]
  · intro hnojson
    have := collect_versions_no_json
      ⟨dictInsert s.fs ("tmp/upload_" ++ file_id) (.bytes content)⟩
      ex.file_id _ hnojson
    rw [show get_file_versions
        ⟨dictInsert s.fs ("tmp/upload_" ++ file_id) (.bytes content)⟩
        ex.file_id
        = match collect_versions
            ⟨dictInsert s.fs ("tmp/upload_" ++ file_id) (.bytes content)⟩
            ex.file_id
            (dir_children
              ⟨dictInsert s.fs ("tmp/upload_" ++ file_id) (.bytes content)⟩
              ("versions/" ++ ex.file_id ++ "/")) with
          | .error e => .error e
          | .ok ms => .ok (stable_sort (fun a b => decide (a.version ≤ b.version)) ms)
        from rfl, this] at hvs
    simpa [stable_sort] using hvs.symm

/-- Witness for `upload_existing_path_amended` on the concrete store `s_up`:
with `overwrite=false` the blob lands in version slot `versions/f1/v1` and the
upload fails with the validation error; with `overwrite=true` it lands at the
fresh root `f2`. -/
theorem upload_existing_path_amended_witness :
    upload_file id {} s_up "new" none "docs/a.txt" none none false "f2" 7
        = ⟨.error (.validationError "field required"),
           ⟨dictInsert s_up.fs (get_file_path "f1" (some 1)) (.bytes "new")⟩, []⟩
    ∧ upload_file id {} s_up "new" none "docs/a.txt" none none true "f2" 7
        = ⟨.error (.validationError "field required"),
           ⟨dictInsert s_up.fs (get_file_path "f2" none) (.bytes "new")⟩, []⟩ := by
  have h := upload_existing_path_amended id {} s_up "new" none "docs/a.txt"
    none none "f2" 7 rec1 [] (by decide) rfl (by decide) rfl rfl rfl rfl
  exact ⟨h.1, h.2.1⟩

theorem scan_loop_registers_nothing (hash_fn : String → String)
    (doc_bytes : FileMetadata → String) (detect new_id : String → String)
    (c_t m_t : String → Time) (now : Time) (known : List String) :
    ∀ (l : List (String × FsNode)) (st : FMState) (count : Nat)
      (evs : List FMEvent),
      scan_loop hash_fn doc_bytes detect new_id c_t m_t now known st count evs l
        = (count, st, evs) := by
  intro l
  induction l with
  | nil => intro st count evs; rfl
  | cons pn rest ih =>
    intro st count evs
    obtain ⟨p, node⟩ := pn
    by_cases hm : path_suffix p = ".meta"
    · simp only [scan_loop, if_pos hm]
      exact ih st count evs
    · simp only [scan_loop, if_neg hm]
      split
      · exact ih st count evs
      · rw [construct_no_path now _ rfl]
        exact ih st count evs

theorem scan_and_register_nothing (hash_fn : String → String)
    (doc_bytes : FileMetadata → String) (detect new_id : String → String)
    (c_t m_t : String → Time) (s : FMState) (now : Time) :
    scan_and_register_existing_files hash_fn doc_bytes detect new_id c_t m_t
      s now = (0, s, []) := by
  unfold scan_and_register_existing_files
  exact scan_loop_registers_nothing hash_fn doc_bytes detect new_id c_t m_t
    now _ s.fs s 0 []

theorem upload_rest_construction_error (cfg : FMConfig) (s1 : FMState)
    (temp content : String) (ct : Option String) (filename : String)
    (md : Option (List (String × Json))) (tags : Option (List String))
    (ow : Bool) (fid cs : String) (now : Time)
    (hver : ∀ ex, get_file_metadata_by_path s1 filename = some ex →
      ow = false → ∃ vs, get_file_versions s1 ex.file_id = .ok vs) :
    (upload_rest cfg s1 temp content ct filename md tags ow fid cs now).result
        = .error (.validationError "field required")
    ∧ (upload_rest cfg s1 temp content ct filename md tags ow fid cs now).events
        = [] := by
  cases hb : get_file_metadata_by_path s1 filename with
  | none =>
    cases ow <;>
      (unfold upload_rest; rw [hb]; dsimp only;
       rw [construct_no_path now _ rfl]; exact ⟨rfl, rfl⟩)
  | some ex =>
    cases ow with
    | true =>
      unfold upload_rest
      rw [hb]
      dsimp only
      rw [construct_no_path now _ rfl]
      exact ⟨rfl, rfl⟩
    | false =>
      obtain ⟨vs, hvs⟩ := hver ex hb rfl
      unfold upload_rest
      rw [hb]
      dsimp only
      rw [hvs]
      dsimp only
      rw [construct_no_path now _ rfl]
      exact ⟨rfl, rfl⟩

/-- C6 amended: the `FileMetadata` model does declare `path` required with no
default, and neither `upload_file` nor `scan_and_register_existing_files`
supplies it, so every record construction fails validation — but only
`upload_file` raises the resulting error to its caller (returning no record
and emitting no event); `scan_and_register_existing_files` catches it per
file, registers nothing, and returns 0 without raising. -/
theorem record_construction_fails_amended (hash_fn : String → String)
    (cfg : FMConfig) (s : FMState) (content : String) (ct : Option String)
    (filename : String) (md : Option (List (String × Json)))
    (tags : Option (List String)) (overwrite : Bool) (file_id : String)
    (now : Time) (doc_bytes : FileMetadata → String)
    (detect new_id : String → String) (c_t m_t : String → Time)
    (hfn : ¬ filename = "")
    (hext : validate_extension cfg filename = true)
    (hsz : content.length ≤ cfg.max_file_size)
    (hded : ∀ m, find_file_by_checksum
        ⟨dictInsert s.fs ("tmp/upload_" ++ file_id) (.bytes content)⟩
        (hash_fn content) = some m → overwrite = true)
    (hver : ∀ ex, get_file_metadata_by_path
        ⟨dictInsert s.fs ("tmp/upload_" ++ file_id) (.bytes content)⟩
        filename = some ex → overwrite = false →
      ∃ vs, get_file_versions
        ⟨dictInsert s.fs ("tmp/upload_" ++ file_id) (.bytes content)⟩
        ex.file_id = .ok vs) :
    (upload_file hash_fn cfg s content ct filename md tags overwrite file_id
        now).result = .error (.validationError "field required")
    ∧ (upload_file hash_fn cfg s content ct filename md tags overwrite file_id
        now).events = []
    ∧ scan_and_register_existing_files hash_fn doc_bytes detect new_id c_t m_t
        s now = (0, s, []) := by
  have hsz' : ¬ content.length > cfg.max_file_size := by omega
  have hu : upload_file hash_fn cfg s content ct filename md tags overwrite
      file_id now
      = upload_rest cfg
          ⟨dictInsert s.fs ("tmp/upload_" ++ file_id) (.bytes content)⟩
          ("tmp/upload_" ++ file_id) content ct filename md tags overwrite
          file_id (hash_fn content) now := by
    unfold upload_file
    rw [if_neg hfn, hext]
    simp only [Bool.true_eq_false, if_false, if_neg hsz']
    cases hf : find_file_by_checksum
        ⟨dictInsert s.fs ("tmp/upload_" ++ file_id) (.bytes content)⟩
        (hash_fn content) with
    | none => cases overwrite <;> rfl
    | some m => rw [hded m hf]
  have hrest := upload_rest_construction_error cfg
    ⟨dictInsert s.fs ("tmp/upload_" ++ file_id) (.bytes content)⟩
    ("tmp/upload_" ++ file_id) content ct filename md tags overwrite file_id
    (hash_fn content) now hver
  rw [hu]
  exact ⟨hrest.1, hrest.2,
    scan_and_register_nothing hash_fn doc_bytes detect new_id c_t m_t s now⟩

/-- Witness for `record_construction_fails_amended`: uploading fresh content
over the existing path with `overwrite=true` on `s_up` yields the validation
error and no event, and a scan of `s_up` registers nothing. -/
theorem record_construction_fails_amended_witness :
    (upload_file id {} s_up "new" none "docs/a.txt" none none true "f2" 7).result
        = .error (.validationError "field required")
    ∧ (upload_file id {} s_up "new" none "docs/a.txt" none none true "f2" 7).events
        = []
    ∧ scan_and_register_existing_files id (fun _ => "")
        (fun _ => "application/octet-stream") (fun _ => "g1")
        (fun _ => 0) (fun _ => 0) s_up 7 = (0, s_up, []) :=
  record_construction_fails_amended id {} s_up "new" none "docs/a.txt" none
    none true "f2" 7 (fun _ => "") (fun _ => "application/octet-stream")
    (fun _ => "g1") (fun _ => 0) (fun _ => 0) (by decide) rfl (by decide)
    (fun m hm => rfl)
    (fun ex hex hov => absurd hov (by simp))

end MCP
